import Mathlib

/-!
Verification of the serial-hunter pretty-unicode codec.

This file gives a shallow embedding of `src/serialhunter/pretty_unicode_codec.py`
and `src/serialhunter/x_code_escape_errors.py`: the byte-to-glyph mapping table,
the pretty encoder/decoder transform engine, the incremental session wrappers
and their state packing, and the `uxreplace` error-substitution handler, and
proves (or refutes) the specified properties about them.

Text is represented as `List Char`, byte strings as `List Nat` (each entry a
byte value 0-255; out-of-range values only arise where the Python dict lookups
would raise `KeyError`, which the embedding models with `Option`/`Except`).
-/

set_option maxRecDepth 40000

namespace SerialHunter

/-- Modelled from the spec: the process-wide escape-prefix glyph constant
`BYTESTRING_CHARACTER`, imported by the codec from the `serialhunter` package
root (whose module is not among the provided sources).  The spec fixes its
default value to "˟". -/
def BYTESTRING_CHARACTER : Char := '˟'

/-- Modelled from the spec: the process-wide line-continuation glyph constant
`NEWLINE_CHARACTER`, imported by the codec from the `serialhunter` package
root (whose module is not among the provided sources).  The spec fixes its
default value to "↲". -/
def NEWLINE_CHARACTER : Char := '↲'

/-- Lowercase hex digit character for a value 0-15, as produced by Python
`format(_, "x")` and `bytes.hex()`. -/
def hexDigitLower (k : Nat) : Char :=
  Char.ofNat (if k < 10 then 48 + k else 87 + k)

/-- Uppercase hex digit character for a value 0-15, as produced by
`str.upper()` applied to a lowercase hex digit. -/
def hexDigitUpper (k : Nat) : Char :=
  Char.ofNat (if k < 10 then 48 + k else 55 + k)

/-- Accumulator loop for `toHexLower`.  The first argument is structural
fuel bounding the number of digits (any fuel at least the digit count gives
the same result, and `toHexLower` passes `n` itself, which always suffices). -/
def toHexLowerGo : Nat → Nat → List Char → List Char
  | _, 0, acc => acc
  | 0, _, acc => acc
  | fuel + 1, n, acc => toHexLowerGo fuel (n / 16) (hexDigitLower (n % 16) :: acc)

/-- Digits of Python `f"{n:x}"`: lowercase hexadecimal, no padding
(`f"{0:x}" = "0"`). -/
def toHexLower (n : Nat) : List Char :=
  if n = 0 then ['0'] else toHexLowerGo n n []

/-- The `CHAR_UPDATE_DICT` table of `pretty_unicode_codec.py`: special-cased
display glyphs for selected byte values (dict modelled as a partial function). -/
def CHAR_UPDATE_DICT : Nat → Option (List Char)
  | 0x00 => some ['␀']
  | 0x08 => some ['␈']
  | 0x09 => some ['\t', '→']
  | 0x0A => some ['␍']
  | 0x0B => some ['␋']
  | 0x0C => some ['␌']
  | 0x0D => some ['␊']
  | 0x0E => some ['␎']
  | 0x0F => some ['␏']
  | 0x1C => some ['␜']
  | 0x1D => some ['␝']
  | 0x1E => some ['␞']
  | 0x1F => some ['␟']
  | 0x20 => some ['·']
  | 0x24 => some ['␤']
  | 0x7F => some ['␡']
  | _ => none

/-- The `ESCAPE_SEQUENCES` dict: `{n: f"{BYTESTRING_CHARACTER}{n:x}" for n in range(256)}`. -/
def ESCAPE_SEQUENCES (n : Nat) : Option (List Char) :=
  if n < 256 then some (BYTESTRING_CHARACTER :: toHexLower n) else none

/-- The `BASE_ASCII` dict: `{n: chr(n) for n in range(128)}`. -/
def BASE_ASCII (n : Nat) : Option (List Char) :=
  if n < 128 then some [Char.ofNat n] else none

/-- The `byte_to_chars` dict: `ESCAPE_SEQUENCES` updated with `BASE_ASCII`,
then updated with `CHAR_UPDATE_DICT` (later updates win). -/
def byte_to_chars (n : Nat) : Option (List Char) :=
  match CHAR_UPDATE_DICT n with
  | some g => some g
  | none =>
    match BASE_ASCII n with
    | some g => some g
    | none => ESCAPE_SEQUENCES n

/-- Total version of the byte-to-glyph table (defaulting to `[]` outside
0-255, where the dict lookup would raise). -/
def glyphTotal (n : Nat) : List Char := (byte_to_chars n).getD []

/-- The `char_to_bytes` dict: built from the single-character values of
`byte_to_chars` with `BASE_ASCII` items appended last (so every ASCII
character maps to its own code, and each special single-character glyph maps
to its byte). -/
def char_to_bytes (c : Char) : Option Nat :=
  if c.toNat < 128 then some c.toNat
  else if c = '␀' then some 0x00
  else if c = '␈' then some 0x08
  else if c = '␍' then some 0x0A
  else if c = '␋' then some 0x0B
  else if c = '␌' then some 0x0C
  else if c = '␊' then some 0x0D
  else if c = '␎' then some 0x0E
  else if c = '␏' then some 0x0F
  else if c = '␜' then some 0x1C
  else if c = '␝' then some 0x1D
  else if c = '␞' then some 0x1E
  else if c = '␟' then some 0x1F
  else if c = '·' then some 0x20
  else if c = '␤' then some 0x24
  else if c = '␡' then some 0x7F
  else none

/-- The whitespace characters accepted (and mapped to a plain space) by
CPython's `int()` string parsing: 0x09-0x0D, space, NEL, NBSP, and the
Unicode space separators.  Verified exhaustively against CPython 3.11 (note
that the C0 separators 0x1C-0x1F, although matched by `str.isspace`, are not
accepted by `int()`). -/
def isPySpace (c : Char) : Bool :=
  let n := c.toNat
  n == 0x9 || n == 0xA || n == 0xB || n == 0xC || n == 0xD || n == 0x20 ||
    n == 0x85 || n == 0xA0 || n == 0x1680 ||
    (decide (0x2000 ≤ n) && decide (n ≤ 0x200A)) ||
    n == 0x2028 || n == 0x2029 || n == 0x202F || n == 0x205F || n == 0x3000

/-- Start codepoints of the 66 contiguous runs of Unicode decimal digits
(Numeric_Type=Decimal): in every run the codepoint at offset k has decimal
value k.  Generated from the `unicodedata` tables of CPython 3.11, the
runtime this codec targets. -/
def pyDecimalDigitStarts : List Nat :=
  [0x30, 0x660, 0x6F0, 0x7C0, 0x966, 0x9E6, 0xA66, 0xAE6, 0xB66, 0xBE6,
   0xC66, 0xCE6, 0xD66, 0xDE6, 0xE50, 0xED0, 0xF20, 0x1040, 0x1090, 0x17E0,
   0x1810, 0x1946, 0x19D0, 0x1A80, 0x1A90, 0x1B50, 0x1BB0, 0x1C40, 0x1C50,
   0xA620, 0xA8D0, 0xA900, 0xA9D0, 0xA9F0, 0xAA50, 0xABF0, 0xFF10, 0x104A0,
   0x10D30, 0x11066, 0x110F0, 0x11136, 0x111D0, 0x112F0, 0x11450, 0x114D0,
   0x11650, 0x116C0, 0x11730, 0x118E0, 0x11950, 0x11C50, 0x11D50, 0x11DA0,
   0x16A60, 0x16AC0, 0x16B50, 0x1D7CE, 0x1D7D8, 0x1D7E2, 0x1D7EC, 0x1D7F6,
   0x1E140, 0x1E2F0, 0x1E950, 0x1FBF0]

/-- `Py_UNICODE_TODECIMAL`: the decimal value of a Unicode decimal-digit
character, `none` for every other character. -/
def pyToDecimal (c : Char) : Option Nat :=
  (pyDecimalDigitStarts.find? (fun s => decide (s ≤ c.toNat) &&
    decide (c.toNat < s + 10))).map (fun s => c.toNat - s)

/-- `_PyUnicode_TransformDecimalAndSpaceToASCII`, applied character by
character before numeric parsing: whitespace becomes a plain space, Unicode
decimal digits become their ASCII digit, everything else is kept (a kept
non-ASCII character later fails the digit grammar, exactly as CPython
rejects it). -/
def pyTransformChar (c : Char) : Char :=
  if isPySpace c then ' '
  else
    match pyToDecimal c with
    | some d => Char.ofNat (48 + d)
    | none => c

/-- ASCII hexadecimal digit predicate. -/
def isHexDigitChar (c : Char) : Bool :=
  ('0' ≤ c && c ≤ '9') || ('a' ≤ c && c ≤ 'f') || ('A' ≤ c && c ≤ 'F')

/-- Value of an ASCII hexadecimal digit. -/
def hexCharVal (c : Char) : Nat :=
  if c ≤ '9' then c.toNat - 48
  else if c ≤ 'F' then c.toNat - 55
  else c.toNat - 87

/-- Hex-digit run with single underscores allowed between digits, continuing
an already-parsed accumulator (Python integer-literal digit grammar). -/
def pyHexDigitsGo : Nat → List Char → Option Nat
  | acc, [] => some acc
  | acc, c :: rest =>
    if isHexDigitChar c then pyHexDigitsGo (acc * 16 + hexCharVal c) rest
    else if c = '_' then
      match rest with
      | d :: rest2 =>
        if isHexDigitChar d then pyHexDigitsGo (acc * 16 + hexCharVal d) rest2 else none
      | [] => none
    else none

/-- Nonempty hex-digit run (must start with a digit). -/
def pyHexDigitsTop : List Char → Option Nat
  | [] => none
  | c :: rest => if isHexDigitChar c then pyHexDigitsGo (hexCharVal c) rest else none

/-- Hex-digit run after an explicit `0x` prefix (one leading underscore is
permitted directly after the prefix). -/
def pyHexAfterBase : List Char → Option Nat
  | '_' :: rest => pyHexDigitsTop rest
  | l => pyHexDigitsTop l

/-- Strip leading and trailing whitespace. -/
def pyStrip (l : List Char) : List Char :=
  ((l.dropWhile isPySpace).reverse.dropWhile isPySpace).reverse

/-- Body of `pyIntHex` after stripping and sign removal. -/
def pyIntHexCore : List Char → Option Nat
  | '0' :: 'x' :: rest => pyHexAfterBase rest
  | '0' :: 'X' :: rest => pyHexAfterBase rest
  | l => pyHexDigitsTop l

/-- Python `int(s, 16)`: the decimal/space transform, optional surrounding
whitespace, optional sign, optional `0x` prefix, then hex digits (with
underscores allowed between digits); `none` models the `ValueError` raised
on any other input.  Verified exhaustively against CPython 3.11 on all
relevant strings of length 1 and 2, the only lengths the escape buffer can
have. -/
def pyIntHex (l : List Char) : Option Int :=
  let s := pyStrip (l.map pyTransformChar)
  match s with
  | '+' :: rest => (pyIntHexCore rest).map (fun n => (n : Int))
  | '-' :: rest => (pyIntHexCore rest).map (fun n => -(n : Int))
  | _ => (pyIntHexCore s).map (fun n => (n : Int))

/-- Exceptions that `encode_pretty` (and the incremental encoder wrapper
around it) can raise. -/
inductive EncError where
  /-- The exception that actually propagates when an escape-prefix glyph is
  seen while a capture is in progress: the source tries to raise
  `UnicodeEncodeError` with keyword arguments, but built-in exceptions take
  no keyword arguments, so the constructor call itself fails with a bare
  `TypeError` ("UnicodeEncodeError() takes no keyword arguments") carrying
  none of the intended object/offset/buffer payload. -/
  | typeErrorNoKwargs
  /-- The `ValueError` raised by `int(escape_buffer, 16)` on a buffer that is
  not a valid hexadecimal literal. -/
  | invalidHexLiteral (buffer : List Char)
  /-- The `OverflowError` raised by `int.to_bytes(1, "little")` on a value
  outside 0-255. -/
  | overflowError (value : Int)
  /-- The `KeyError` raised by the `char_to_bytes[c]` lookup on a character
  with no defined inverse. -/
  | keyError (c : Char)
  /-- The `RuntimeError` raised by `PrettyIncrementalEncoder.encode` when the
  final chunk leaves an escape capture incomplete. -/
  | runtimeUnterminated
  deriving DecidableEq, Repr

/-- Main loop of `encode_pretty`: walks the input one character at a time,
threading the enumeration index `i`, the `skip_next` / `skip_newlines` flags,
the escape-digit countdown `escape_count`, the (call-local) `escape_buffer`
and the output accumulator. -/
def encodeGo (full : List Char) :
    List Char → Nat → Bool → Bool → Nat → List Char → List Nat →
    Except EncError (List Nat × Bool × Bool × Nat)
  | [], _, skip_next, skip_newlines, escape_count, _, acc =>
    .ok (acc, skip_next, skip_newlines, escape_count)
  | c :: rest, i, skip_next, skip_newlines, escape_count, buf, acc =>
    if skip_next then
      encodeGo full rest (i + 1) false skip_newlines escape_count buf acc
    else if c = NEWLINE_CHARACTER then
      encodeGo full rest (i + 1) true skip_newlines escape_count buf acc
    else if c = '\r' ∨ c = '\n' ∨ c = '␍' ∨ c = '␊' then
      if skip_newlines then
        encodeGo full rest (i + 1) false true escape_count buf acc
      else
        encodeGo full rest (i + 1) false true escape_count buf (acc ++ [10])
    else if c = BYTESTRING_CHARACTER then
      if 0 < escape_count then
        -- the raise statement computes __start = i - len(escape_buffer) - 1
        -- and __end = i + 1, but the UnicodeEncodeError constructor rejects
        -- the keyword arguments, so only a bare TypeError escapes
        .error .typeErrorNoKwargs
      else
        encodeGo full rest (i + 1) false false 2 buf acc
    else if escape_count ≠ 0 then
      if escape_count - 1 = 0 then
        match pyIntHex (buf ++ [c]) with
        | none => .error (.invalidHexLiteral (buf ++ [c]))
        | some v =>
          if 0 ≤ v ∧ v < 256 then
            encodeGo full rest (i + 1) false false 0 [] (acc ++ [v.toNat])
          else .error (.overflowError v)
      else
        encodeGo full rest (i + 1) false false (escape_count - 1) (buf ++ [c]) acc
    else if c = '→' then
      encodeGo full rest (i + 1) false false 0 buf acc
    else
      match char_to_bytes c with
      | some b => encodeGo full rest (i + 1) false false 0 buf (acc ++ [b])
      | none => .error (.keyError c)

/-- `encode_pretty(data, skip_next, skip_newlines, escape_count)`: converts a
string (possibly containing prettified values) into bytes, returning the
output together with the three carried state variables.  The escape buffer
starts empty on every call (it is a local of the Python function). -/
def encode_pretty (data : List Char) (skip_next skip_newlines : Bool)
    (escape_count : Nat) : Except EncError (List Nat × Bool × Bool × Nat) :=
  encodeGo data data 0 skip_next skip_newlines escape_count [] []

/-- `decode_pretty(data, was_newline)`: renders a byte sequence as glyphs,
injecting a plain line break when transitioning away from a run of
newline-class bytes; `none` models the `KeyError` on a byte outside 0-255. -/
def decode_pretty : List Nat → Bool → Option (List Char × Bool)
  | [], was_newline => some ([], was_newline)
  | b :: bs, was_newline =>
    match byte_to_chars b with
    | none => none
    | some next_chars =>
      let is_newline : Bool := b == 10 || b == 13
      match decode_pretty bs is_newline with
      | none => none
      | some (rest, wn) =>
        some ((if !is_newline && was_newline then '\n' :: (next_chars ++ rest)
               else next_chars ++ rest), wn)

/-- The mutable state of a `PrettyIncrementalEncoder` session. -/
structure EncState where
  skip_next : Bool
  skip_newlines : Bool
  escape_count : Nat
  deriving DecidableEq, Repr

/-- The state of a freshly constructed (or reset) `PrettyIncrementalEncoder`. -/
def initEncState : EncState := ⟨false, false, 0⟩

/-- `PrettyIncrementalEncoder.getstate`: packs the three state variables into
an integer (`skip_next + skip_newlines*2 + escape_count*4`) paired with an
empty buffer. -/
def getstate (s : EncState) : List Char × Nat :=
  ([], (if s.skip_next then 1 else 0) + (if s.skip_newlines then 1 else 0) * 2 +
    s.escape_count * 4)

/-- `PrettyIncrementalEncoder.setstate`: unpacks a packed state value
(`bool(statevars % 2)`, `bool((statevars // 2) % 4)`, `statevars // 4`,
exactly as written in the source). -/
def setstate (st : List Char × Nat) : EncState :=
  ⟨st.2 % 2 != 0, (st.2 / 2) % 4 != 0, st.2 / 4⟩

/-- `PrettyIncrementalEncoder.encode(data, final)`: runs `encode_pretty` on
the carried state, stores the returned state, and raises `RuntimeError` when
`final` is set while an escape capture is incomplete. -/
def prettyIncrementalEncode (s : EncState) (data : List Char) (final : Bool) :
    Except EncError (List Nat × EncState) :=
  match encode_pretty data s.skip_next s.skip_newlines s.escape_count with
  | .error e => .error e
  | .ok (bs, sn, snl, ec) =>
    if final ∧ ec ≠ 0 then .error .runtimeUnterminated
    else .ok (bs, ⟨sn, snl, ec⟩)

/-- Python `bytes.hex().upper()` digits of a single byte: exactly two
uppercase hex digits. -/
def hexUpper2 (b : Nat) : List Char :=
  [hexDigitUpper (b / 16 % 16), hexDigitUpper (b % 16)]

/-- Uppercase hex rendering of a byte slice, two digits per byte
(`bytes.hex().upper()`). -/
def hexUpperConcat : List Nat → List Char
  | [] => []
  | b :: bs => hexUpper2 b ++ hexUpperConcat bs

/-- Decode branch of `x_code_escape_errors` (`e.object` is `bytes`): the
replacement is `BYTESTRING_CHARACTER + e.object[e.start:e.end].hex().upper()`
and the resume position is `e.end`. -/
def x_code_escape_errors_decode (object : List Nat) (start stop : Nat) :
    List Char × Nat :=
  (BYTESTRING_CHARACTER :: hexUpperConcat ((object.drop start).take (stop - start)),
    stop)

/-- Python `"backslashreplace"` escape bytes of one non-encodable character:
`\xhh` below U+0100, `\uhhhh` below U+10000, `\Uhhhhhhhh` above (lowercase,
zero-padded). -/
def pyBackslashEscape (c : Char) : List Nat :=
  let n := c.toNat
  if n < 0x100 then
    [92, 120, (hexDigitLower (n / 16)).toNat, (hexDigitLower (n % 16)).toNat]
  else if n < 0x10000 then
    [92, 117, (hexDigitLower (n / 4096 % 16)).toNat, (hexDigitLower (n / 256 % 16)).toNat,
      (hexDigitLower (n / 16 % 16)).toNat, (hexDigitLower (n % 16)).toNat]
  else
    [92, 85, (hexDigitLower (n / 268435456 % 16)).toNat, (hexDigitLower (n / 16777216 % 16)).toNat,
      (hexDigitLower (n / 1048576 % 16)).toNat, (hexDigitLower (n / 65536 % 16)).toNat,
      (hexDigitLower (n / 4096 % 16)).toNat, (hexDigitLower (n / 256 % 16)).toNat,
      (hexDigitLower (n / 16 % 16)).toNat, (hexDigitLower (n % 16)).toNat]

/-- `e.object.encode("ascii", errors="backslashreplace")`: ASCII characters
encode to their own byte, all others to their backslash escape. -/
def reEncodeBackslashReplace : List Char → List Nat
  | [] => []
  | c :: rest =>
    (if c.toNat < 128 then [c.toNat] else pyBackslashEscape c) ++
      reEncodeBackslashReplace rest

/-- Python `bytes.replace(b"\\U", b"x")`: left-to-right non-overlapping
replacement of the two-byte pattern `0x5C 0x55` by the single byte `0x78`. -/
def pyReplaceBU : List Nat → List Nat
  | [] => []
  | [b] => [b]
  | b1 :: b2 :: rest =>
    if b1 = 92 ∧ b2 = 85 then 120 :: pyReplaceBU rest
    else b1 :: pyReplaceBU (b2 :: rest)

/-- Encode branch of `x_code_escape_errors` (`e.object` is `str`), for the
ASCII target encoding: `BYTESTRING_CHARACTER.encode("ascii", errors="ignore")`
is empty, so the cross character falls back to `b"x"`; the replacement is the
whole input re-encoded with `backslashreplace` and `b"\\U"` substituted, and
the resume position is `e.end`. -/
def x_code_escape_errors_encode (object : List Char) (start stop : Nat) :
    List Nat × Nat :=
  (pyReplaceBU (reEncodeBackslashReplace object), stop)

/-- Modelled from the spec: the strict byte-to-text transform loop of the
host codec machinery (`bytes.decode("ascii", errors="uxreplace")`), which is
not among the provided sources.  Per the spec, on an offending unit the
Error Substitution Handler is invoked on exactly the offending byte range
(one byte here) and the loop resumes at the returned index, which for this
handler is the end of that range. -/
def asciiDecodeUXGo (object : List Nat) : Nat → List Nat → List Char
  | _, [] => []
  | i, b :: rest =>
    if b < 128 then Char.ofNat b :: asciiDecodeUXGo object (i + 1) rest
    else
      (x_code_escape_errors_decode object i (i + 1)).1 ++
        asciiDecodeUXGo object (i + 1) rest

/-- Strict ASCII decode of a byte sequence under the `uxreplace` handler. -/
def asciiDecodeUX (bs : List Nat) : List Char := asciiDecodeUXGo bs 0 bs

/-- Modelled from the spec: the strict text-to-byte transform loop of the
host codec machinery (`str.encode("ascii", errors="uxreplace")`), not among
the provided sources.  On an offending codepoint the handler is invoked on
the offending range (one character here) and the loop resumes at the
returned index, the end of that range. -/
def asciiEncodeUXGo (object : List Char) : Nat → List Char → List Nat
  | _, [] => []
  | i, c :: rest =>
    if c.toNat < 128 then c.toNat :: asciiEncodeUXGo object (i + 1) rest
    else
      (x_code_escape_errors_encode object i (i + 1)).1 ++
        asciiEncodeUXGo object (i + 1) rest

/-- Strict ASCII encode of a string under the `uxreplace` handler. -/
def asciiEncodeUX (s : List Char) : List Nat := asciiEncodeUXGo s 0 s

/-- Expected result of `uxreplace`-decoding: each ASCII byte is its own
character, each other byte becomes the escape prefix plus its two uppercase
hex digits, independently and in order. -/
def uxDecodeExpected : List Nat → List Char
  | [] => []
  | b :: bs =>
    (if b < 128 then [Char.ofNat b] else BYTESTRING_CHARACTER :: hexUpper2 b) ++
      uxDecodeExpected bs

/-- Concatenation of the glyphs of a byte sequence. -/
def glyphConcat : List Nat → List Char
  | [] => []
  | b :: bs => glyphTotal b ++ glyphConcat bs

/-- Characters that reach the plain `char_to_bytes` lookup branch of the
encoder (not a continuation marker, newline representation, escape prefix or
tab companion). -/
def plainChar (c : Char) : Bool :=
  c != NEWLINE_CHARACTER && c != '\r' && c != '\n' && c != '␍' && c != '␊' &&
    c != BYTESTRING_CHARACTER && c != '→'

/-- Characters that reach the escape-capture branch of the encoder while a
capture is in progress. -/
def capChar (c : Char) : Bool :=
  c != NEWLINE_CHARACTER && c != '\r' && c != '\n' && c != '␍' && c != '␊' &&
    c != BYTESTRING_CHARACTER

/-- Check that, from a clean encoder state, consuming the glyph `g` emits
exactly the byte `b` and returns to the clean state: either a single
plainly-mapped character, a plainly-mapped character followed by the tab
companion glyph, or a full escape sequence whose two captured characters
parse back to `b`. -/
def glyphEncodesTo : List Char → Nat → Bool
  | [c], b => plainChar c && (char_to_bytes c == some b)
  | [c1, c2], b => plainChar c1 && (char_to_bytes c1 == some b) && (c2 == '→')
  | [c1, c2, c3], b =>
    (c1 == BYTESTRING_CHARACTER) && capChar c2 && capChar c3 &&
      (pyIntHex [c2, c3] == some (b : Int)) && decide (b < 256)
  | _, _ => false

/-! ## Helper lemmas -/

/-- Every byte value 0-255 has a forward glyph mapping. -/
theorem byte_to_chars_total : ∀ b, b < 256 → byte_to_chars b = some (glyphTotal b) := by
  decide

/-- Every non-newline byte's glyph re-encodes, from a clean encoder state, to
exactly that byte. -/
theorem glyphTotal_encodes :
    ∀ b, b < 256 → b ≠ 10 → b ≠ 13 → glyphEncodesTo (glyphTotal b) b = true := by
  decide

/-- Consuming a glyph recognized by `glyphEncodesTo` from a clean encoder
state emits exactly its byte and returns to the clean state. -/
theorem encodeGo_glyph_step (g : List Char) (b : Nat)
    (hg : glyphEncodesTo g b = true) (full rest : List Char) (i : Nat)
    (acc : List Nat) :
    encodeGo full (g ++ rest) i false false 0 [] acc =
      encodeGo full rest (i + g.length) false false 0 [] (acc ++ [b]) := by
  match g, hg with
  | [c], hg =>
    simp only [glyphEncodesTo, plainChar, Bool.and_eq_true, bne_iff_ne, ne_eq,
      beq_iff_eq, and_assoc] at hg
    obtain ⟨h1, h2, h3, h4, h5, h6, h7, hb⟩ := hg
    simp [encodeGo, h1, h2, h3, h4, h5, h6, h7, hb]
  | [c1, c2], hg =>
    simp only [glyphEncodesTo, plainChar, Bool.and_eq_true, bne_iff_ne, ne_eq,
      beq_iff_eq, and_assoc] at hg
    obtain ⟨h1, h2, h3, h4, h5, h6, h7, hb, hc2⟩ := hg
    subst hc2
    have t1 : ('→' : Char) ≠ NEWLINE_CHARACTER := by decide
    have t2 : ('→' : Char) ≠ '\r' := by decide
    have t3 : ('→' : Char) ≠ '\n' := by decide
    have t4 : ('→' : Char) ≠ '␍' := by decide
    have t5 : ('→' : Char) ≠ '␊' := by decide
    have t6 : ('→' : Char) ≠ BYTESTRING_CHARACTER := by decide
    simp [encodeGo, h1, h2, h3, h4, h5, h6, h7, hb, t1, t2, t3, t4, t5, t6,
      add_assoc]
  | [c1, c2, c3], hg =>
    simp only [glyphEncodesTo, capChar, Bool.and_eq_true, bne_iff_ne, ne_eq,
      beq_iff_eq, decide_eq_true_eq, and_assoc] at hg
    obtain ⟨hc1, h2a, h2b, h2c, h2d, h2e, h2f, h3a, h3b, h3c, h3d, h3e, h3f,
      hparse, hlt⟩ := hg
    subst hc1
    have hnn : (0 : Int) ≤ (b : Int) := Int.natCast_nonneg b
    have hlt2 : (b : Int) < 256 := by exact_mod_cast hlt
    have u1 : BYTESTRING_CHARACTER ≠ NEWLINE_CHARACTER := by decide
    have u2 : BYTESTRING_CHARACTER ≠ '\r' := by decide
    have u3 : BYTESTRING_CHARACTER ≠ '\n' := by decide
    have u4 : BYTESTRING_CHARACTER ≠ '␍' := by decide
    have u5 : BYTESTRING_CHARACTER ≠ '␊' := by decide
    simp [encodeGo, h2a, h2b, h2c, h2d, h2e, h2f, h3a, h3b, h3c, h3d, h3e, h3f,
      hparse, hnn, hlt2, u1, u2, u3, u4, u5, add_assoc]

/-- Decoding a byte sequence with no newline-class bytes, from the initial
state, yields exactly the concatenated glyphs and a clear carried state. -/
theorem decode_pretty_clean (bs : List Nat)
    (h : ∀ b ∈ bs, b < 256 ∧ b ≠ 10 ∧ b ≠ 13) :
    decode_pretty bs false = some (glyphConcat bs, false) := by
  induction bs with
  | nil => rfl
  | cons b bs ih =>
    obtain ⟨hb1, hb2, hb3⟩ := h b (List.mem_cons_self b bs)
    have hnl : (b == 10 || b == 13) = false := by simp [hb2, hb3]
    simp only [decode_pretty, byte_to_chars_total b hb1, hnl,
      ih (fun x hx => h x (List.mem_cons_of_mem b hx))]
    simp [glyphConcat]

/-- Encoding the concatenated glyphs of a clean byte sequence from a clean
encoder state emits exactly those bytes. -/
theorem encodeGo_glyphConcat (bs : List Nat)
    (h : ∀ b ∈ bs, b < 256 ∧ b ≠ 10 ∧ b ≠ 13) :
    ∀ (full : List Char) (i : Nat) (acc : List Nat),
      encodeGo full (glyphConcat bs) i false false 0 [] acc =
        .ok (acc ++ bs, false, false, 0) := by
  induction bs with
  | nil => intro full i acc; simp [glyphConcat, encodeGo]
  | cons b bs ih =>
    intro full i acc
    obtain ⟨hb1, hb2, hb3⟩ := h b (List.mem_cons_self b bs)
    rw [show glyphConcat (b :: bs) = glyphTotal b ++ glyphConcat bs from rfl,
      encodeGo_glyph_step (glyphTotal b) b (glyphTotal_encodes b hb1 hb2 hb3)
        full (glyphConcat bs) i acc,
      ih (fun x hx => h x (List.mem_cons_of_mem b hx)) full (i + (glyphTotal b).length)
        (acc ++ [b])]
    simp

/-- C1: round-trip law.  For every byte sequence containing no newline bytes
(no 0x0A and no 0x0D), decoding from the initial state yields the
concatenation of the bytes' glyphs with no injected break, and encoding that
text from the initial state reproduces the original byte sequence exactly:
`encode_pretty(decode_pretty(bs)) == bs`. -/
theorem c1_round_trip (bs : List Nat) (h256 : ∀ b ∈ bs, b < 256)
    (hnl : ∀ b ∈ bs, b ≠ 10 ∧ b ≠ 13) :
    decode_pretty bs false = some (glyphConcat bs, false) ∧
    encode_pretty (glyphConcat bs) false false 0 = .ok (bs, false, false, 0) := by
  have h : ∀ b ∈ bs, b < 256 ∧ b ≠ 10 ∧ b ≠ 13 :=
    fun b hb => ⟨h256 b hb, hnl b hb⟩
  refine ⟨decode_pretty_clean bs h, ?_⟩
  unfold encode_pretty
  rw [encodeGo_glyphConcat bs h]
  rfl

/-- Witness for C1 at the concrete byte sequence `[65, 0, 9, 200, 36]`
(letter, NUL, tab, a high byte, and the dollar sign). -/
theorem c1_round_trip_witness :
    (∀ b ∈ ([65, 0, 9, 200, 36] : List Nat), b < 256) ∧
    (∀ b ∈ ([65, 0, 9, 200, 36] : List Nat), b ≠ 10 ∧ b ≠ 13) ∧
    (decode_pretty [65, 0, 9, 200, 36] false =
        some (glyphConcat [65, 0, 9, 200, 36], false) ∧
      encode_pretty (glyphConcat [65, 0, 9, 200, 36]) false false 0 =
        .ok ([65, 0, 9, 200, 36], false, false, 0)) :=
  ⟨by decide, by decide, c1_round_trip [65, 0, 9, 200, 36] (by decide) (by decide)⟩

/-- C2 (code bug): chunk invariance fails for the incremental encoder.  The
local `escape_buffer` of `encode_pretty` is dropped between `encode` calls
(only `escape_count` is carried), so feeding "˟a" then "b" emits byte 0x0B
(hex of "b" alone) while feeding "˟ab" in one call emits byte 0xAB. -/
theorem c2_chunk_invariance_bug :
    prettyIncrementalEncode initEncState ['˟', 'a'] false =
      .ok ([], ⟨false, false, 1⟩) ∧
    prettyIncrementalEncode ⟨false, false, 1⟩ ['b'] false =
      .ok ([11], ⟨false, false, 0⟩) ∧
    prettyIncrementalEncode initEncState ['˟', 'a', 'b'] false =
      .ok ([171], ⟨false, false, 0⟩) ∧
    ([] ++ [11] : List Nat) ≠ [171] :=
  ⟨rfl, rfl, rfl, by decide⟩

/-- C3 counterexample: decoding a run consisting of a single LF byte (with
nothing after it) emits only the glyph and no line-break character at all
(the pending break is carried in the state instead). -/
theorem c3_newline_collapse_counterexample :
    decode_pretty [10] false = some (['␍'], true) ∧
    '\n' ∉ (['␍'] : List Char) :=
  ⟨rfl, by decide⟩

/-- C3 amended: decoding a run of n ≥ 1 consecutive CR/LF bytes followed by a
non-newline byte emits each run byte's own glyph, then exactly one plain
line-break character placed after the run's glyphs (not between them), then
the next byte's glyph; a run at the end of the input emits only the glyphs,
with the pending break carried in the decoder state. -/
theorem c3_newline_collapse_amended (run : List Nat) (b : Nat) (wn : Bool)
    (hrun : run ≠ []) (hall : ∀ x ∈ run, x = 10 ∨ x = 13) (hb : b < 256)
    (hb10 : b ≠ 10) (hb13 : b ≠ 13) :
    decode_pretty (run ++ [b]) wn =
      some (glyphConcat run ++ '\n' :: glyphTotal b, false) := by
  induction run generalizing wn with
  | nil => exact absurd rfl hrun
  | cons x run ih =>
    have hx := hall x (List.mem_cons_self x run)
    have hx256 : x < 256 := by rcases hx with h | h <;> omega
    have hxnl : (x == 10 || x == 13) = true := by
      rcases hx with h | h <;> simp [h]
    have hbnl : (b == 10 || b == 13) = false := by simp [hb10, hb13]
    cases run with
    | nil =>
      simp only [List.nil_append, List.cons_append, decode_pretty,
        byte_to_chars_total x hx256, byte_to_chars_total b hb, hxnl, hbnl]
      simp [glyphConcat]
    | cons y run2 =>
      have htail := ih true (List.cons_ne_nil y run2)
        (fun z hz => hall z (List.mem_cons_of_mem x hz))
      simp only [List.cons_append, decode_pretty,
        byte_to_chars_total x hx256, hxnl] at htail ⊢
      rw [htail]
      simp [glyphConcat]

/-- Witness for C3 at the concrete run CR LF followed by the byte for "B". -/
theorem c3_newline_collapse_witness :
    decode_pretty [13, 10, 66] false =
      some (glyphConcat [13, 10] ++ '\n' :: glyphTotal 66, false) :=
  c3_newline_collapse_amended [13, 10] 66 false (by decide) (by decide)
    (by decide) (by decide) (by decide)

/-- Decoding always succeeds on byte sequences of values 0-255, from any
starting state. -/
theorem decode_pretty_isSome :
    ∀ (bs : List Nat) (st : Bool), (∀ b ∈ bs, b < 256) →
      (decode_pretty bs st).isSome := by
  intro bs
  induction bs with
  | nil => intro st _; rfl
  | cons b bs ih =>
    intro st h
    have h2 := ih (b == 10 || b == 13) (fun x hx => h x (List.mem_cons_of_mem b hx))
    obtain ⟨⟨s, wn⟩, hr⟩ := Option.isSome_iff_exists.mp h2
    simp [decode_pretty, byte_to_chars_total b (h b (List.mem_cons_self b bs)), hr]

/-- C4: decoder totality.  Every byte value 0-255 has exactly one forward
glyph mapping (`byte_to_chars` is a function defined on all of 0-255), and
for every byte sequence and every starting decoder state `decode_pretty`
succeeds without raising; no escape-parsing occurs on the decode side (the
decoder consults only the forward table, byte by byte). -/
theorem c4_decoder_totality (bs : List Nat) (st : Bool)
    (h : ∀ b ∈ bs, b < 256) :
    (∀ b, b < 256 → (byte_to_chars b).isSome) ∧
    ∃ r, decode_pretty bs st = some r :=
  ⟨by decide, Option.isSome_iff_exists.mp (decode_pretty_isSome bs st h)⟩

/-- Witness for C4 at a concrete byte sequence covering a control byte, a
newline byte, a high byte and a printable byte. -/
theorem c4_decoder_totality_witness :
    (∀ b, b < 256 → (byte_to_chars b).isSome) ∧
    ∃ r, decode_pretty [0, 10, 200, 65] false = some r :=
  c4_decoder_totality [0, 10, 200, 65] false (by decide)

/-- C5 counterexample: the chunk "˟˟f" ends with the escape-prefix glyph
followed by exactly one hex digit, yet encoding it raises an error (the bare
`TypeError` escaping the malformed mid-capture raise, not
`UnterminatedEscape`) when final is set, and raises that same error (not
nothing) when final is unset. -/
theorem c5_fatal_finalization_counterexample :
    prettyIncrementalEncode initEncState ['˟', '˟', 'f'] false =
      .error .typeErrorNoKwargs ∧
    prettyIncrementalEncode initEncState ['˟', '˟', 'f'] true =
      .error .typeErrorNoKwargs :=
  ⟨rfl, rfl⟩

/-- C5 amended: for every starting session state and every chunk whose
processing succeeds and leaves a nonzero escape-digit countdown (in
particular a well-formed chunk ending with the escape-prefix glyph plus one
hex digit), encoding with final set raises the unterminated-escape
finalization error (a `RuntimeError` in the source) and encoding with final
unset raises nothing, the partial-capture countdown being carried in the
session state. -/
theorem c5_fatal_finalization_amended (s : EncState) (data : List Char)
    (bs : List Nat) (sn snl : Bool) (ec : Nat)
    (henc : encode_pretty data s.skip_next s.skip_newlines s.escape_count =
      .ok (bs, sn, snl, ec))
    (hec : ec ≠ 0) :
    prettyIncrementalEncode s data true = .error .runtimeUnterminated ∧
    prettyIncrementalEncode s data false = .ok (bs, ⟨sn, snl, ec⟩) := by
  unfold prettyIncrementalEncode
  rw [henc]
  simp [hec]

/-- Witness for C5 at the chunk "˟f" fed to a fresh session. -/
theorem c5_fatal_finalization_witness :
    prettyIncrementalEncode initEncState ['˟', 'f'] true =
      .error .runtimeUnterminated ∧
    prettyIncrementalEncode initEncState ['˟', 'f'] false =
      .ok ([], ⟨false, false, 1⟩) :=
  c5_fatal_finalization_amended initEncState ['˟', 'f'] [] false false 1 rfl
    (by decide)

/-- C6 (code bug): neither malformed-escape case is reported as the claim
and the spec require.  An escape-prefix glyph encountered while a capture is
in progress does fail immediately, but the raise statement passes keyword
arguments that `UnicodeEncodeError` rejects, so a bare `TypeError` with no
input offset and no buffer content propagates ("˟˟").  A non-hex character
inside a 2-digit capture is not reported at all when it is consumed ("˟z"
succeeds), and only when the second captured character completes the buffer
does `int(_, 16)` raise a plain `ValueError` carrying the buffer text and no
offset ("˟zz"). -/
theorem c6_malformed_escape_bug :
    encode_pretty ['˟', '˟'] false false 0 = .error .typeErrorNoKwargs ∧
    encode_pretty ['˟', 'z'] false false 0 = .ok ([], false, false, 1) ∧
    encode_pretty ['˟', 'z', 'z'] false false 0 =
      .error (.invalidHexLiteral ['z', 'z']) :=
  ⟨rfl, rfl, rfl⟩

/-- The `uxreplace` decode loop realizes the per-byte substitution map. -/
theorem asciiDecodeUXGo_spec (object : List Nat) :
    ∀ (rest : List Nat) (i : Nat), object.drop i = rest →
      asciiDecodeUXGo object i rest = uxDecodeExpected rest := by
  intro rest
  induction rest with
  | nil => intro i _; rfl
  | cons b rest ih =>
    intro i h
    have hdrop : object.drop (i + 1) = rest := by
      have h2 := congrArg (List.drop 1) h
      rw [List.drop_drop] at h2
      simpa [Nat.add_comm] using h2
    by_cases hb : b < 128
    · simp [asciiDecodeUXGo, uxDecodeExpected, hb, ih (i + 1) hdrop]
    · have htake : (object.drop i).take 1 = [b] := by
        rw [h]
        rfl
      simp [asciiDecodeUXGo, uxDecodeExpected, hb, ih (i + 1) hdrop,
        x_code_escape_errors_decode, htake, hexUpperConcat]

/-- C7: the substitution handler's decode path never raises: it is a total
function returning the escape prefix plus the uppercase two-hex-digit value
of the offending byte range as replacement, and the end of that range as the
resume index; consequently a strict ASCII decode under the handler maps every
valid ASCII byte to itself unchanged and every unmappable byte independently
to its own escape, preserving order. -/
theorem c7_substitution_decode :
    (∀ (object : List Nat) (start stop : Nat),
      (x_code_escape_errors_decode object start stop).2 = stop) ∧
    ∀ bs : List Nat, asciiDecodeUX bs = uxDecodeExpected bs :=
  ⟨fun _ _ _ => rfl, fun bs => asciiDecodeUXGo_spec bs bs 0 rfl⟩

/-- C8 (code bug): `setstate(getstate())` does not restore the session state.
`setstate` decodes the `skip_newlines` bit with `(statevars // 2) % 4`
instead of `% 2`, so with `escape_count = 1` the packed value 4 restores
`skip_newlines` as True; the restored session then swallows a newline byte
that the original session would emit. -/
theorem c8_state_roundtrip_bug :
    setstate (getstate ⟨false, false, 1⟩) = ⟨false, true, 1⟩ ∧
    (⟨false, true, 1⟩ : EncState) ≠ ⟨false, false, 1⟩ ∧
    prettyIncrementalEncode ⟨false, false, 1⟩ ['\r'] false =
      .ok ([10], ⟨false, true, 1⟩) ∧
    prettyIncrementalEncode (setstate (getstate ⟨false, false, 1⟩)) ['\r'] false =
      .ok ([], ⟨false, true, 1⟩) :=
  ⟨rfl, by decide, rfl, rfl⟩

/-- C9 counterexample: byte 0x24 (the dollar sign, which is not NUL, tab, a
C0 control, space or DEL) does not decode to itself: its glyph is "␤". -/
theorem c9_self_rendering_counterexample :
    byte_to_chars 36 = some ['␤'] ∧ (['␤'] : List Char) ≠ ['$'] ∧
    Char.ofNat 36 = '$' :=
  ⟨rfl, by decide, rfl⟩

/-- C9 amended: apart from the special-cased glyphs for NUL, backspace, tab,
LF, VT, FF, CR, SO, SI, FS, GS, RS, US, space, the dollar sign (0x24), and
DEL, every byte in 0-127 decodes to the character equal to itself; 0x24 is an
additional special case (glyph "␤") beyond the list in the claim. -/
theorem c9_self_rendering_amended :
    (∀ b, b < 128 →
      b ∉ ([0x00, 0x08, 0x09, 0x0A, 0x0B, 0x0C, 0x0D, 0x0E, 0x0F, 0x1C, 0x1D,
        0x1E, 0x1F, 0x20, 0x24, 0x7F] : List Nat) →
      byte_to_chars b = some [Char.ofNat b]) ∧
    byte_to_chars 0x24 = some ['␤'] :=
  ⟨by decide, rfl⟩

/-- Witness for C9 at byte 65. -/
theorem c9_self_rendering_witness :
    byte_to_chars 65 = some [Char.ofNat 65] :=
  c9_self_rendering_amended.1 65 (by decide) (by decide)

/-- The `uxreplace` encode loop emits an ASCII run unchanged. -/
theorem asciiEncodeUXGo_ascii (object : List Char) :
    ∀ (l rest : List Char) (i : Nat), (∀ x ∈ l, x.toNat < 128) →
      asciiEncodeUXGo object i (l ++ rest) =
        l.map Char.toNat ++ asciiEncodeUXGo object (i + l.length) rest := by
  intro l
  induction l with
  | nil => intro rest i _; simp
  | cons c l ih =>
    intro rest i h
    have hc := h c (List.mem_cons_self c l)
    have harith : i + (l.length + 1) = i + 1 + l.length := by omega
    simp [asciiEncodeUXGo, hc,
      ih rest (i + 1) (fun x hx => h x (List.mem_cons_of_mem c hx)), harith]

/-- The `uxreplace` encode loop on an all-ASCII input is the identity
byte-for-byte transcription. -/
theorem asciiEncodeUXGo_ascii_all (object l : List Char) (i : Nat)
    (h : ∀ x ∈ l, x.toNat < 128) :
    asciiEncodeUXGo object i l = l.map Char.toNat := by
  have h2 := asciiEncodeUXGo_ascii object l [] i h
  simpa [asciiEncodeUXGo] using h2

/-- `backslashreplace` re-encoding distributes over append. -/
theorem reEncodeBackslashReplace_append (l1 l2 : List Char) :
    reEncodeBackslashReplace (l1 ++ l2) =
      reEncodeBackslashReplace l1 ++ reEncodeBackslashReplace l2 := by
  induction l1 with
  | nil => rfl
  | cons c l ih => simp [reEncodeBackslashReplace, ih]

/-- `backslashreplace` re-encoding of an all-ASCII string is plain
transcription. -/
theorem reEncodeBackslashReplace_ascii (l : List Char)
    (h : ∀ x ∈ l, x.toNat < 128) :
    reEncodeBackslashReplace l = l.map Char.toNat := by
  induction l with
  | nil => rfl
  | cons c l ih =>
    have hc := h c (List.mem_cons_self c l)
    simp [reEncodeBackslashReplace, hc,
      ih (fun x hx => h x (List.mem_cons_of_mem c hx))]

/-- `bytes.replace(b"\\U", b"x")` passes over a byte that is not a
backslash. -/
theorem pyReplaceBU_cons (x : Nat) (X : List Nat) (hx : x ≠ 92) :
    pyReplaceBU (x :: X) = x :: pyReplaceBU X := by
  cases X with
  | nil => rfl
  | cons y ys => simp [pyReplaceBU, hx]

/-- `bytes.replace(b"\\U", b"x")` leaves a backslash-free run unchanged. -/
theorem pyReplaceBU_append (l X : List Nat) (h : ∀ x ∈ l, x ≠ 92) :
    pyReplaceBU (l ++ X) = l ++ pyReplaceBU X := by
  induction l with
  | nil => rfl
  | cons x l ih =>
    rw [List.cons_append, pyReplaceBU_cons x _ (h x (List.mem_cons_self x l)),
      ih (fun y hy => h y (List.mem_cons_of_mem x hy))]
    rfl

/-- C10 (implicit): on an encode failure the substitution handler returns a
re-encoding of the entire input string (`backslashreplace`, with `b"\\U"`
substituted by `b"x"` for the ASCII target) together with resume index
`e.end`, rather than a replacement for only the offending codepoint range;
consequently, for an input made of an ASCII, backslash-free prefix `a`, one
unencodable character `c` and an ASCII suffix `b`, the encoded output is
`a ++ (a ++ escape-of-c-and-b) ++ b`: the text preceding the offending
codepoint appears twice. -/
theorem c10_encode_path_duplication (a b : List Char) (c : Char)
    (ha : ∀ x ∈ a, x.toNat < 128) (hb : ∀ x ∈ b, x.toNat < 128)
    (hc : 128 ≤ c.toNat) (hasl : ∀ x ∈ a, x.toNat ≠ 92) :
    asciiEncodeUX (a ++ c :: b) =
      a.map Char.toNat ++
        (a.map Char.toNat ++
          pyReplaceBU (pyBackslashEscape c ++ b.map Char.toNat)) ++
        b.map Char.toNat := by
  have hcn : ¬ c.toNat < 128 := by omega
  have hmap : ∀ x ∈ a.map Char.toNat, x ≠ 92 := by
    intro x hx
    obtain ⟨y, hy, rfl⟩ := List.mem_map.mp hx
    exact hasl y hy
  have h1 : reEncodeBackslashReplace (a ++ c :: b) =
      a.map Char.toNat ++ (pyBackslashEscape c ++ b.map Char.toNat) := by
    rw [reEncodeBackslashReplace_append, reEncodeBackslashReplace_ascii a ha]
    simp [reEncodeBackslashReplace, hcn, reEncodeBackslashReplace_ascii b hb]
  unfold asciiEncodeUX
  rw [asciiEncodeUXGo_ascii (a ++ c :: b) a (c :: b) 0 ha]
  simp only [asciiEncodeUXGo, hcn, if_neg, x_code_escape_errors_encode, h1,
    not_false_eq_true]
  rw [pyReplaceBU_append (a.map Char.toNat) _ hmap,
    asciiEncodeUXGo_ascii_all _ b _ hb]
  simp

/-- Witness for C10 at the string "A" ++ "ÿ" ++ "B". -/
theorem c10_encode_path_duplication_witness :
    asciiEncodeUX ['A', 'ÿ', 'B'] =
      (['A'].map Char.toNat) ++
        ((['A'].map Char.toNat) ++
          pyReplaceBU (pyBackslashEscape 'ÿ' ++ ['B'].map Char.toNat)) ++
        ['B'].map Char.toNat :=
  c10_encode_path_duplication ['A'] ['B'] 'ÿ' (by decide) (by decide)
    (by decide) (by decide)

end SerialHunter
